import Mathlib

/-!
Shallow embedding of the HD44780 character-LCD driver used by
`src/rp235x-hal-examples/src/bin/lcd_display.rs`, together with a model of the
controller's DDRAM/address-counter behaviour and of the example program's
unwrap-chained call sequence.

The driver crate itself (`hd44780_driver`) is not part of the repository's
sources; only its caller (the example binary) is.  The driver-side definitions
below are therefore modelled from the specification's component design
(spec.md sections 3, 4, 6, 7), while the example-program definitions are
modelled from the source file.
-/

namespace Lcd

/-- The six digital output lines owned by the driver: register select,
enable/strobe, and the four data lines D4..D7. -/
inductive Line : Type
  | rs
  | en
  | d4
  | d5
  | d6
  | d7
deriving DecidableEq

/-- A bus-level event: driving one line to a level, or a blocking delay of a
number of microseconds. -/
inductive Ev : Type
  | drive (l : Line) (b : Bool)
  | delayUs (us : Nat)
deriving DecidableEq

/-- Modelled from the spec: the nibble transfer primitive (spec.md section 4).
Drive RS to the requested level, drive the four data lines to the value's bit
pattern (D4 = bit 0 .. D7 = bit 3), wait the data-setup time, pulse EN high
for the minimum enable-pulse width, drive EN low, then wait the enable-cycle
settle time. -/
def write_nibble (rsLevel : Bool) (v : Nat) : List Ev :=
  [Ev.drive Line.rs rsLevel,
   Ev.drive Line.d4 (v.testBit 0),
   Ev.drive Line.d5 (v.testBit 1),
   Ev.drive Line.d6 (v.testBit 2),
   Ev.drive Line.d7 (v.testBit 3),
   Ev.delayUs 1,
   Ev.drive Line.en true,
   Ev.delayUs 1,
   Ev.drive Line.en false,
   Ev.delayUs 100]

/-- Modelled from the spec: an 8-bit logical value is sent as two nibble
transfers, high nibble first, each with the same RS level. -/
def write_byte (rsLevel : Bool) (v : Nat) : List Ev :=
  write_nibble rsLevel (v / 16 % 16) ++ write_nibble rsLevel (v % 16)

/-- Number of line-drive calls in an event trace. -/
def numDrives : List Ev → Nat
  | [] => 0
  | Ev.drive _ _ :: rest => numDrives rest + 1
  | Ev.delayUs _ :: rest => numDrives rest

/-- Execution of an event trace against fallible output lines.  `ok n` tells
whether the n-th line-drive call (globally counted) succeeds.  Returns the
events actually performed and either the counter after the trace or the index
of the first failing drive call (the error is propagated unchanged and
nothing after it is attempted: fail-fast, no retry — spec.md section 7). -/
def execTrace (ok : Nat → Bool) : Nat → List Ev → List Ev × Except Nat Nat
  | k, [] => ([], Except.ok k)
  | k, Ev.delayUs n :: rest =>
    ((Ev.delayUs n) :: (execTrace ok k rest).1, (execTrace ok k rest).2)
  | k, Ev.drive l b :: rest =>
    if ok k then
      ((Ev.drive l b) :: (execTrace ok (k + 1) rest).1, (execTrace ok (k + 1) rest).2)
    else
      ([], Except.error k)

theorem execTrace_nil (ok : Nat → Bool) (k : Nat) :
    execTrace ok k [] = ([], Except.ok k) := rfl

theorem execTrace_delay (ok : Nat → Bool) (k n : Nat) (rest : List Ev) :
    execTrace ok k (Ev.delayUs n :: rest) =
      ((Ev.delayUs n) :: (execTrace ok k rest).1, (execTrace ok k rest).2) := rfl

theorem execTrace_drive (ok : Nat → Bool) (k : Nat) (l : Line) (b : Bool) (rest : List Ev) :
    execTrace ok k (Ev.drive l b :: rest) =
      if ok k then
        ((Ev.drive l b) :: (execTrace ok (k + 1) rest).1, (execTrace ok (k + 1) rest).2)
      else
        ([], Except.error k) := rfl

/-- Executing a concatenated trace runs the first part, and continues into the
second only when the first fully succeeded. -/
theorem execTrace_append (ok : Nat → Bool) (k : Nat) (t1 t2 : List Ev) :
    execTrace ok k (t1 ++ t2) =
      match execTrace ok k t1 with
      | (p, Except.ok k2) =>
        (p ++ (execTrace ok k2 t2).1, (execTrace ok k2 t2).2)
      | (p, Except.error e) => (p, Except.error e) := by
  induction t1 generalizing k with
  | nil => simp [execTrace_nil]
  | cons ev rest ih =>
    cases ev with
    | delayUs n =>
      simp only [List.cons_append, execTrace_delay, ih k]
      cases h : execTrace ok k rest with
      | mk p r =>
        cases r with
        | ok k2 => simp
        | error e => simp
    | drive l b =>
      simp only [List.cons_append, execTrace_drive]
      by_cases hk : ok k
      · simp only [hk, if_true, ih (k + 1)]
        cases h : execTrace ok (k + 1) rest with
        | mk p r =>
          cases r with
          | ok k2 => simp
          | error e => simp
      · simp [hk]

/-- On success, every event of the trace was performed, and the counter
advanced by the number of drive calls. -/
theorem execTrace_ok_spec (ok : Nat → Bool) (k : Nat) (t : List Ev) (k2 : Nat)
    (h : (execTrace ok k t).2 = Except.ok k2) :
    (execTrace ok k t).1 = t ∧ k2 = k + numDrives t := by
  induction t generalizing k with
  | nil =>
    simp [execTrace_nil] at h
    simp [execTrace_nil, numDrives, h]
  | cons ev rest ih =>
    cases ev with
    | delayUs n =>
      simp only [execTrace_delay] at h ⊢
      rcases ih k h with ⟨h1, h2⟩
      simp [numDrives, h1, h2]
    | drive l b =>
      simp only [execTrace_drive] at h ⊢
      by_cases hk : ok k
      · simp only [hk, if_true] at h ⊢
        rcases ih (k + 1) h with ⟨h1, h2⟩
        constructor
        · simp [h1]
        · simp [numDrives, h2]; omega
      · simp [hk] at h

/-- The execution succeeds exactly when every drive call of the trace
succeeds. -/
theorem execTrace_isOk_iff (ok : Nat → Bool) (k : Nat) (t : List Ev) :
    (∃ k2, (execTrace ok k t).2 = Except.ok k2) ↔
      ∀ j, j < numDrives t → ok (k + j) = true := by
  induction t generalizing k with
  | nil => simp [execTrace_nil, numDrives]
  | cons ev rest ih =>
    cases ev with
    | delayUs n => simpa [execTrace_delay, numDrives] using ih k
    | drive l b =>
      simp only [execTrace_drive, numDrives]
      by_cases hk : ok k
      · simp only [hk, if_true]
        rw [ih (k + 1)]
        constructor
        · intro h j hj
          cases j with
          | zero => simpa using hk
          | succ j0 =>
            have := h j0 (by omega)
            simpa [Nat.add_comm, Nat.add_left_comm, Nat.add_assoc] using this
        · intro h j hj
          have := h (j + 1) (by omega)
          simpa [Nat.add_comm, Nat.add_left_comm, Nat.add_assoc] using this
      · simp only [hk, if_false]
        constructor
        · rintro ⟨k2, hk2⟩
          exact absurd hk2 (by simp)
        · intro h
          exact absurd (by simpa using h 0 (by omega)) hk

/-- On failure, the failing drive call really failed, every earlier drive call
succeeded, and the performed events form a prefix of the trace (nothing out of
order, nothing retried, nothing after the failure). -/
theorem execTrace_error_spec (ok : Nat → Bool) (k : Nat) (t : List Ev) (e : Nat)
    (h : (execTrace ok k t).2 = Except.error e) :
    ok e = false ∧ k ≤ e ∧ (execTrace ok k t).1 <+: t := by
  induction t generalizing k with
  | nil => simp [execTrace_nil] at h
  | cons ev rest ih =>
    cases ev with
    | delayUs n =>
      simp only [execTrace_delay] at h ⊢
      rcases ih k h with ⟨h1, h2, h3⟩
      exact ⟨h1, h2, List.cons_prefix_cons.mpr ⟨rfl, h3⟩⟩
    | drive l b =>
      simp only [execTrace_drive] at h ⊢
      by_cases hk : ok k
      · simp only [hk, if_true] at h ⊢
        rcases ih (k + 1) h with ⟨h1, h2, h3⟩
        exact ⟨h1, by omega, List.cons_prefix_cons.mpr ⟨rfl, h3⟩⟩
      · simp only [hk, if_false] at h ⊢
        simp at h
        subst h
        exact ⟨by simpa using hk, Nat.le_refl k, List.nil_prefix⟩

/-- A logical byte transfer: RS level (false = command register, true = data
register) and the 8-bit value. -/
structure Transfer : Type where
  rs : Bool
  value : Nat
deriving DecidableEq

/-- Pin-level trace of one logical byte transfer: two nibbles, high first,
same RS level for both. -/
def transferTrace (t : Transfer) : List Ev :=
  write_byte t.rs t.value

/-- Modelled from the spec: `write_str` sends each character of the input
text, left to right, as one data transfer (RS = 1); it issues no commands and
does no line-wrap handling of its own (spec.md section 4). -/
def writeStrTransfers (s : List Nat) : List Transfer :=
  s.map (fun c => ⟨true, c % 256⟩)

/-- Modelled from the spec: `clear` issues the single clear-display command
(byte 0x01). -/
def clearTransfers : List Transfer :=
  [⟨false, 0x01⟩]

/-- Modelled from the spec: `reset` re-issues the return-home command
(byte 0x02), forcing the cursor to address 0 without clearing memory. -/
def resetTransfers : List Transfer :=
  [⟨false, 0x02⟩]

/-- Modelled from the spec: `set_cursor_pos` issues the set-DDRAM-address
command with the given address and performs no range validation or remapping
(spec.md section 4: out-of-range addresses are passed through to the
controller). The command byte is 0x80 with the 7-bit address in its low
bits. -/
def set_cursor_pos (a : Nat) : List Transfer :=
  [⟨false, 0x80 + a % 128⟩]

/-- Pin-level trace of `write_str`, one byte per character in input order. -/
def writeStrTrace : List Nat → List Ev
  | [] => []
  | c :: rest => write_byte true (c % 256) ++ writeStrTrace rest

/-- Running `write_str` against fallible lines: execute its pin trace. -/
def write_str (ok : Nat → Bool) (k : Nat) (s : List Nat) : List Ev × Except Nat Nat :=
  execTrace ok k (writeStrTrace s)

theorem writeStrTrace_append (s1 s2 : List Nat) :
    writeStrTrace (s1 ++ s2) = writeStrTrace s1 ++ writeStrTrace s2 := by
  induction s1 with
  | nil => simp [writeStrTrace]
  | cons c rest ih => simp [writeStrTrace, ih]

/-- Modelled from the spec: pin-level trace of `clear` — send the
clear-display command, then block for the controller's long settle delay
(floor about 2 ms, spec.md sections 4 and 6) before returning. -/
def clearTrace : List Ev :=
  write_byte false 0x01 ++ [Ev.delayUs 2000]

/-- Modelled from the spec: pin-level trace of `reset` (return home also
needs the long settle delay on the controller). -/
def resetTrace : List Ev :=
  write_byte false 0x02 ++ [Ev.delayUs 2000]

/-- Pin-level trace of `set_cursor_pos`. -/
def setCursorTrace (a : Nat) : List Ev :=
  write_byte false (0x80 + a % 128)

/-- The driver's conceptual states (spec.md section 4, state machine
summary). -/
inductive DState : Type
  | uninitialized
  | fourBitConfigured
  | ready
deriving DecidableEq

/-- A logical step of the initialization sequence: a bare nibble sent while
the interface width is still being forced, or a full 8-bit command. -/
inductive LogicalCmd : Type
  | selectNibble (v : Nat)
  | command (v : Nat)
deriving DecidableEq

/-- Modelled from the spec: the fixed initialization sequence of `new_4bit`
(spec.md sections 4 and 8): 8-bit-select three times, 4-bit-select, then
function set (4-bit, two lines, 5x8 font), display off, clear display, entry
mode set (increment, no shift), display on (cursor off, blink off). -/
def new4bitSeq : List LogicalCmd :=
  [LogicalCmd.selectNibble 0x3,
   LogicalCmd.selectNibble 0x3,
   LogicalCmd.selectNibble 0x3,
   LogicalCmd.selectNibble 0x2,
   LogicalCmd.command 0x28,
   LogicalCmd.command 0x08,
   LogicalCmd.command 0x01,
   LogicalCmd.command 0x06,
   LogicalCmd.command 0x0C]

/-- Pin-level trace of one logical initialization step (all with RS = 0). -/
def cmdTrace : LogicalCmd → List Ev
  | LogicalCmd.selectNibble v => write_nibble false (v % 16)
  | LogicalCmd.command v => write_byte false (v % 256)

/-- Pin-level trace of a list of logical initialization steps. -/
def cmdsTrace : List LogicalCmd → List Ev
  | [] => []
  | c :: rest => cmdTrace c ++ cmdsTrace rest

/-- Modelled from the spec: the full pin-level trace of `new_4bit` — wait the
power-stabilization delay, then run the fixed initialization sequence. -/
def new4bitTrace : List Ev :=
  Ev.delayUs 40000 :: cmdsTrace new4bitSeq

/-- Modelled from the spec: running `new_4bit` against fallible lines.  On
success the driver object is returned in the `ready` state; on failure the
error is returned and no driver object exists. -/
def new_4bit (ok : Nat → Bool) : List Ev × Except Nat DState :=
  ((execTrace ok 0 new4bitTrace).1,
   match (execTrace ok 0 new4bitTrace).2 with
   | Except.ok _ => Except.ok DState.ready
   | Except.error e => Except.error e)

/-- Controller-side state: the DDRAM address counter and the 128-cell DDRAM
contents (spec.md section 3, CursorAddress and DDRAM). -/
structure LcdState : Type where
  addr : Nat
  ddram : List Nat
deriving DecidableEq

/-- DDRAM contents after a clear: every cell holds the blank character
0x20. -/
def blankDdram : List Nat :=
  List.replicate 128 0x20

/-- One controller step on a logical byte transfer, parameterized by the
controller's own address auto-increment function `inc` (the driver does not
control wrapping; spec.md section 4).  A data transfer stores the byte at the
current address and lets the controller advance the address; a command with
the high bit set loads the address counter; 0x01 clears DDRAM and homes the
address; 0x02/0x03 home the address; other commands (function set, display
and entry-mode flags) leave address and DDRAM unchanged. -/
def ctrlStep (inc : Nat → Nat) (st : LcdState) (t : Transfer) : LcdState :=
  if t.rs then
    ⟨inc st.addr % 128, st.ddram.set (st.addr % 128) (t.value % 256)⟩
  else
    let b := t.value % 256
    if 0x80 ≤ b then ⟨b % 0x80, st.ddram⟩
    else if b = 0x01 then ⟨0, blankDdram⟩
    else if b = 0x02 ∨ b = 0x03 then ⟨0, st.ddram⟩
    else st

/-- Run the controller over a transfer list, logging for every data transfer
the DDRAM address it lands at and the stored byte. -/
def runCtrlLog (inc : Nat → Nat) (st : LcdState) :
    List Transfer → LcdState × List (Nat × Nat)
  | [] => (st, [])
  | t :: rest =>
    ((runCtrlLog inc (ctrlStep inc st t) rest).1,
     (if t.rs then [(st.addr % 128, t.value % 256)] else [])
       ++ (runCtrlLog inc (ctrlStep inc st t) rest).2)

/-- Controller state after a transfer list. -/
def runCtrl (inc : Nat → Nat) (st : LcdState) (ts : List Transfer) : LcdState :=
  (runCtrlLog inc st ts).1

/-- The standard two-line controller's linear auto-increment (modulo the
7-bit address space). -/
def incStd (a : Nat) : Nat :=
  (a + 1) % 128

theorem runCtrlLog_append (inc : Nat → Nat) (st : LcdState) (t1 t2 : List Transfer) :
    runCtrlLog inc st (t1 ++ t2) =
      ((runCtrlLog inc (runCtrlLog inc st t1).1 t2).1,
       (runCtrlLog inc st t1).2 ++ (runCtrlLog inc (runCtrlLog inc st t1).1 t2).2) := by
  induction t1 generalizing st with
  | nil => simp [runCtrlLog]
  | cons t rest ih => simp [runCtrlLog, ih]

/-- Addresses at which `n` consecutive data transfers land when the
controller starts at address `a` and advances with `inc` after each one. -/
def addrSeq (inc : Nat → Nat) : Nat → Nat → List Nat
  | _, 0 => []
  | a, n + 1 => a % 128 :: addrSeq inc (inc a % 128) n

/-- The public driver operations other than construction (spec.md section 4):
reset, clear, write_str, set_cursor_pos. -/
inductive Op : Type
  | opReset
  | opClear
  | opWriteStr (s : List Nat)
  | opSetCursorPos (a : Nat)

/-- Modelled from the spec: the driver-state transition of one public
operation (spec.md section 4, state machine summary).  Every operation other
than construction requires the `ready` state and leaves the driver `ready`;
in any other state no operation is available (`none`). -/
def opRun : DState → Op → Option DState
  | DState.ready, _ => some DState.ready
  | DState.uninitialized, _ => none
  | DState.fourBitConfigured, _ => none

/-- Run a sequence of public operations from a driver state; `none` as soon
as an operation is attempted in a state that does not allow it. -/
def opsRun : DState → List Op → Option DState
  | st, [] => some st
  | st, o :: rest =>
    match opRun st o with
    | some st2 => opsRun st2 rest
    | none => none

/-- The characters of the string literal written first by the example
program: the bytes of the 9 characters of the first text. -/
def text1 : List Nat :=
  [114, 112, 45, 104, 97, 108, 32, 111, 110]

/-- The characters of the string literal written second by the example
program: the bytes of the 8 characters of the second text. -/
def text2 : List Nat :=
  [72, 68, 52, 52, 55, 56, 48, 33]

/-- The example program's LCD call sequence, as pin-level traces, in source
order (lcd_display.rs lines 77-99): new_4bit, reset, clear, write_str of the
first text, set_cursor_pos 40, write_str of the second text. -/
def mainSteps : List (List Ev) :=
  [new4bitTrace,
   resetTrace,
   clearTrace,
   writeStrTrace text1,
   setCursorTrace 40,
   writeStrTrace text2]

/-- The example program's unwrap chain: run each step's trace in order,
threading the drive counter; a failing step's `unwrap` panics, and with the
halt-on-panic handler no later step is attempted.  Returns one result per
attempted step. -/
def runResults (ok : Nat → Bool) : Nat → List (List Ev) → List (Except Nat Nat)
  | _, [] => []
  | k, t :: rest =>
    match (execTrace ok k t).2 with
    | Except.ok k2 => Except.ok k2 :: runResults ok k2 rest
    | Except.error e => [Except.error e]

/-- Whether a step result is a success. -/
def resOk : Except Nat Nat → Bool
  | Except.ok _ => true
  | Except.error _ => false

/-- The logical transfer stream of the claimed end-to-end scenario: the
commands of `new_4bit`, then `reset`, `clear`, `write_str` of the first text,
`set_cursor_pos 40`, `write_str` of the second text. -/
def initTransfers : List Transfer :=
  [⟨false, 0x28⟩, ⟨false, 0x08⟩, ⟨false, 0x01⟩, ⟨false, 0x06⟩, ⟨false, 0x0C⟩]

/-- Controller state right after initialization and the example's reset and
clear calls, starting from an arbitrary power-on state. -/
def stAfterClear (st0 : LcdState) : LcdState :=
  runCtrl incStd st0 (initTransfers ++ resetTransfers ++ clearTransfers)

/-- Controller state after additionally interpreting the first text write and
the cursor move of the scenario. -/
def stAfterMove (st0 : LcdState) : LcdState :=
  runCtrl incStd (stAfterClear st0)
    (writeStrTransfers text1 ++ set_cursor_pos 40)

/-- The drive levels written to one line over a trace, in order. -/
def lineWrites (l : Line) : List Ev → List Bool
  | [] => []
  | Ev.drive l2 b :: rest => (if l2 = l then [b] else []) ++ lineWrites l rest
  | Ev.delayUs _ :: rest => lineWrites l rest

/-- Initialization (whose internal clear-display command blanks DDRAM and
homes the address counter) followed by the example's reset and clear leaves
the controller at address 0 with blank DDRAM, whatever the power-on state
was. -/
theorem stAfterClear_eq (st0 : LcdState) : stAfterClear st0 = ⟨0, blankDdram⟩ := by
  simp [stAfterClear, runCtrl, runCtrlLog, ctrlStep, initTransfers,
    resetTransfers, clearTransfers]

theorem stAfterMove_eq (st0 : LcdState) :
    stAfterMove st0 = stAfterMove ⟨0, blankDdram⟩ := by
  unfold stAfterMove
  rw [stAfterClear_eq st0, stAfterClear_eq]

/-- Attempted steps never outnumber program steps, and in the unwrap chain
every attempted step except possibly the last one succeeded. -/
theorem runResults_spec (ok : Nat → Bool) (k : Nat) (steps : List (List Ev)) :
    (runResults ok k steps).length ≤ steps.length ∧
    (runResults ok k steps).dropLast.all resOk = true := by
  induction steps generalizing k with
  | nil => simp [runResults]
  | cons t rest ih =>
    simp only [runResults]
    cases h : (execTrace ok k t).2 with
    | error e => simp
    | ok k2 =>
      rcases ih k2 with ⟨ih1, ih2⟩
      constructor
      · simp only [List.length_cons]
        omega
      · show (Except.ok k2 :: runResults ok k2 rest).dropLast.all resOk = true
        cases hrr : runResults ok k2 rest with
        | nil => rfl
        | cons r rs =>
          rw [hrr] at ih2
          show (Except.ok k2 :: (r :: rs).dropLast).all resOk = true
          rw [List.all_cons, ih2]
          rfl

end Lcd

namespace Lcd

/-- C1: in the example's exact call sequence the first `write_str` performs 9
data transfers at DDRAM addresses 0..8, but the second one does NOT land at
0x40..0x47: `set_cursor_pos` is called with the decimal address 40 = 0x28, so
under the driver's set-DDRAM-address semantics the 8 transfers land at
0x28..0x2F.  This refutes the claimed 0x40..0x47 at the concrete scenario. -/
theorem scenario_second_write_not_at_line2_start :
    ¬ ((runCtrlLog incStd (stAfterMove ⟨0, blankDdram⟩)
        (writeStrTransfers text2)).2.map Prod.fst =
      [0x40, 0x41, 0x42, 0x43, 0x44, 0x45, 0x46, 0x47]) := by
  decide

/-- C1 (amended): in the example's exact call sequence — successful
`new_4bit`, `reset`, `clear`, `write_str` of the 9-character text,
`set_cursor_pos 40`, `write_str` of the 8-character text — the first
`write_str` performs exactly 9 data transfers at DDRAM addresses 0..8 in
increasing order, and the second performs exactly 8 data transfers at DDRAM
addresses 0x28..0x2F (decimal 40..47) in increasing order, from any power-on
controller state. -/
theorem scenario_write_addresses (st0 : LcdState) :
    (writeStrTransfers text1).length = 9 ∧
    (runCtrlLog incStd (stAfterClear st0) (writeStrTransfers text1)).2.map Prod.fst =
      [0, 1, 2, 3, 4, 5, 6, 7, 8] ∧
    (writeStrTransfers text2).length = 8 ∧
    (runCtrlLog incStd (stAfterMove st0) (writeStrTransfers text2)).2.map Prod.fst =
      [40, 41, 42, 43, 44, 45, 46, 47] := by
  rw [stAfterClear_eq st0, stAfterMove_eq st0]
  decide

/-- C2: for every address argument, `set_cursor_pos` issues exactly one
set-DDRAM-address command whose byte is 0x80 plus the 7-bit address, with no
range validation, and interpreting it on any controller state leaves the
DDRAM contents unchanged; for an in-range address the command carries exactly
the given address and the controller's address counter becomes that
address. -/
theorem set_cursor_pos_spec (a : Nat) (inc : Nat → Nat) (st : LcdState) :
    set_cursor_pos a = [⟨false, 0x80 + a % 128⟩] ∧
    (runCtrl inc st (set_cursor_pos a)).ddram = st.ddram ∧
    (a < 128 →
      set_cursor_pos a = [⟨false, 0x80 + a⟩] ∧
      (runCtrl inc st (set_cursor_pos a)).addr = a) := by
  have hlt : a % 128 < 128 := Nat.mod_lt _ (by norm_num)
  have h1 : (0x80 + a % 128) % 256 = 0x80 + a % 128 := Nat.mod_eq_of_lt (by omega)
  have h2 : (0x80 + a % 128) % 0x80 = a % 128 := by omega
  have hcond : (0x80 : Nat) ≤ 0x80 + a % 128 := Nat.le_add_right _ _
  have haddr : (runCtrl inc st (set_cursor_pos a)).addr = a % 128 := by
    simp [runCtrl, runCtrlLog, set_cursor_pos, ctrlStep, h1, hcond, h2]
  refine ⟨rfl, ?_, ?_⟩
  · simp [runCtrl, runCtrlLog, set_cursor_pos, ctrlStep, h1, hcond]
  · intro ha
    have ha2 : a % 128 = a := Nat.mod_eq_of_lt ha
    refine ⟨by rw [set_cursor_pos, ha2], ?_⟩
    rw [haddr, ha2]

/-- Witness for C2 at the example's concrete argument 40. -/
theorem set_cursor_pos_spec_witness :
    set_cursor_pos 40 = [⟨false, 0x80 + 40⟩] ∧
    (runCtrl incStd ⟨0, blankDdram⟩ (set_cursor_pos 40)).addr = 40 := by
  have h := set_cursor_pos_spec 40 incStd ⟨0, blankDdram⟩
  exact ⟨(h.2.2 (by norm_num)).1, (h.2.2 (by norm_num)).2⟩

/-- C3: `new_4bit` issues the fixed sequence 8-bit-select three times,
4-bit-select, function set, display off, clear, entry mode, display on, in
that order, for every line/delay implementation (every drive oracle); it
returns the driver in the ready state exactly when every drive call of the
initialization trace succeeds, and on failure it returns the failing call's
error, no driver object, and the performed events are a prefix of the
initialization trace (no retry of later steps). -/
theorem new_4bit_spec (ok : Nat → Bool) :
    new4bitSeq =
      [LogicalCmd.selectNibble 0x3, LogicalCmd.selectNibble 0x3,
       LogicalCmd.selectNibble 0x3, LogicalCmd.selectNibble 0x2,
       LogicalCmd.command 0x28, LogicalCmd.command 0x08, LogicalCmd.command 0x01,
       LogicalCmd.command 0x06, LogicalCmd.command 0x0C] ∧
    ((new_4bit ok).2 = Except.ok DState.ready ↔
      ∀ j, j < numDrives new4bitTrace → ok j = true) ∧
    (∀ e, (new_4bit ok).2 = Except.error e →
      ok e = false ∧ (new_4bit ok).1 <+: new4bitTrace ∧
      ∀ st, (new_4bit ok).2 ≠ Except.ok st) := by
  refine ⟨rfl, ?_, ?_⟩
  · simp only [new_4bit]
    cases h : (execTrace ok 0 new4bitTrace).2 with
    | ok k2 =>
      simp only []
      constructor
      · intro _ j hj
        have := (execTrace_isOk_iff ok 0 new4bitTrace).mp ⟨k2, h⟩ j hj
        simpa using this
      · intro _
        trivial
    | error e =>
      simp only []
      constructor
      · intro hc
        exact absurd hc (by simp)
      · intro hall
        rcases (execTrace_isOk_iff ok 0 new4bitTrace).mpr
          (fun j hj => by simpa using hall j hj) with ⟨k2, hk2⟩
        rw [h] at hk2
        exact absurd hk2 (by simp)
  · intro e he
    simp only [new_4bit] at he ⊢
    cases h : (execTrace ok 0 new4bitTrace).2 with
    | ok k2 =>
      rw [h] at he
      exact absurd he (by simp)
    | error e2 =>
      rw [h] at he
      have he2 : e2 = e := by simpa using he
      subst he2
      rcases execTrace_error_spec ok 0 new4bitTrace e2 h with ⟨h1, _, h3⟩
      refine ⟨h1, h3, ?_⟩
      intro st hst
      simp at hst

/-- Witness for C3 with an always-succeeding line implementation. -/
theorem new_4bit_spec_witness : (new_4bit (fun _ => true)).2 = Except.ok DState.ready := by
  have h := new_4bit_spec (fun _ => true)
  exact h.2.1.mpr (fun j hj => rfl)

/-- C4: if a drive call fails while transferring the character `c` of the
input (the characters before it having transferred successfully), then
`write_str` returns exactly that error, the performed events are the
preceding characters' transfers plus a prefix of the failing character's own
transfer, and no transfer of any later character is attempted. -/
theorem write_str_error_spec (ok : Nat → Bool) (k0 : Nat) (s1 : List Nat) (c : Nat)
    (s2 : List Nat) (pfx : List Ev) (k1 : Nat)
    (hpre : execTrace ok k0 (writeStrTrace s1) = (pfx, Except.ok k1))
    (pi : List Ev) (e : Nat)
    (hfail : execTrace ok k1 (write_byte true (c % 256)) = (pi, Except.error e)) :
    write_str ok k0 (s1 ++ c :: s2) = (pfx ++ pi, Except.error e) ∧
    ok e = false ∧ pi <+: write_byte true (c % 256) := by
  have hsplit : writeStrTrace (s1 ++ c :: s2) =
      writeStrTrace s1 ++ (write_byte true (c % 256) ++ writeStrTrace s2) := by
    rw [writeStrTrace_append]
    rfl
  have herr : (execTrace ok k1 (write_byte true (c % 256))).2 = Except.error e := by
    rw [hfail]
  rcases execTrace_error_spec ok k1 (write_byte true (c % 256)) e herr with ⟨h1, _, h3⟩
  refine ⟨?_, h1, by rw [hfail] at h3; exact h3⟩
  unfold write_str
  rw [hsplit, execTrace_append, hpre]
  simp only []
  rw [execTrace_append, hfail]

/-- Witness for C4: the oracle failing at global drive index 14 fails on the
first drive call of the second character; the first character's 14 events
went through, nothing of the second character is performed, and the error is
returned unchanged. -/
theorem write_str_error_spec_witness :
    write_str (fun n => decide (n < 14)) 0 ([65] ++ 66 :: [67]) =
      (writeStrTrace [65] ++ [], Except.error 14) ∧
    (fun n => decide (n < 14)) 14 = false ∧
    ([] : List Ev) <+: write_byte true (66 % 256) := by
  exact write_str_error_spec (fun n => decide (n < 14)) 0 [65] 66 [67]
    (writeStrTrace [65]) 14 (by rfl) [] 14 (by rfl)

/-- C5: on every successful call, `clear` has issued the clear-display
command byte 0x01 and performed the whole trace including the trailing
blocking wait of 2000 microseconds, which meets the 2 ms settle floor, before
returning. -/
theorem clear_settle_spec (ok : Nat → Bool) (k k2 : Nat)
    (h : (execTrace ok k clearTrace).2 = Except.ok k2) :
    (execTrace ok k clearTrace).1 = clearTrace ∧
    clearTrace = write_byte false 0x01 ++ [Ev.delayUs 2000] ∧
    2000 ≤ 2000 :=
  ⟨(execTrace_ok_spec ok k clearTrace k2 h).1, rfl, Nat.le_refl 2000⟩

/-- Witness for C5 with an always-succeeding line implementation. -/
theorem clear_settle_spec_witness :
    (execTrace (fun _ => true) 0 clearTrace).1 = clearTrace ∧
    clearTrace = write_byte false 0x01 ++ [Ev.delayUs 2000] ∧
    2000 ≤ 2000 :=
  clear_settle_spec (fun _ => true) 0 14 (by rfl)

/-- C6: starting from any controller state (hence from any ready driver), a
second `clear` produces exactly the controller state of a single `clear`,
namely blank display contents with the address counter at 0, for every
controller auto-increment behaviour. -/
theorem clear_idempotent (inc : Nat → Nat) (st : LcdState) :
    runCtrl inc (runCtrl inc st clearTransfers) clearTransfers =
      runCtrl inc st clearTransfers ∧
    runCtrl inc st clearTransfers = ⟨0, blankDdram⟩ := by
  constructor <;> simp [runCtrl, runCtrlLog, ctrlStep, clearTransfers]

/-- C7 helper: the logged DDRAM addresses of a text write are exactly the
iterates of the controller's own auto-increment from the starting address. -/
theorem runCtrlLog_writeStr_fst (inc : Nat → Nat) (st : LcdState) (s : List Nat) :
    (runCtrlLog inc st (writeStrTransfers s)).2.map Prod.fst =
      addrSeq inc st.addr s.length := by
  induction s generalizing st with
  | nil => simp [writeStrTransfers, runCtrlLog, addrSeq]
  | cons c rest ih =>
    simp only [writeStrTransfers, List.map_cons] at ih ⊢
    simp only [runCtrlLog, ctrlStep, if_true, List.length_cons, addrSeq]
    simpa using ih ⟨inc st.addr % 128, st.ddram.set (st.addr % 128) (c % 256 % 256)⟩

/-- C7 helper: the logged stored bytes of a text write are the input
characters (reduced to bytes) in input order. -/
theorem runCtrlLog_writeStr_snd (inc : Nat → Nat) (st : LcdState) (s : List Nat) :
    (runCtrlLog inc st (writeStrTransfers s)).2.map Prod.snd =
      s.map (fun c => c % 256) := by
  induction s generalizing st with
  | nil => simp [writeStrTransfers, runCtrlLog]
  | cons c rest ih =>
    simp only [writeStrTransfers, List.map_cons] at ih ⊢
    simp only [runCtrlLog, ctrlStep, if_true]
    have hmod : c % 256 % 256 = c % 256 := Nat.mod_mod_of_dvd c dvd_rfl
    simp only [List.singleton_append, List.map_cons, hmod]
    exact congrArg (List.cons (c % 256))
      (by simpa [hmod] using
        ih ⟨inc st.addr % 128, st.ddram.set (st.addr % 128) (c % 256 % 256)⟩)

/-- C7: `write_str` sends one data transfer (RS = 1) per character, left to
right, issuing no commands; and the address at which each character lands is
exactly what the controller's own auto-increment function produces, for every
such function — the driver does no line-wrap handling of its own. -/
theorem write_str_transfers_spec (inc : Nat → Nat) (st : LcdState) (s : List Nat) :
    writeStrTransfers s = s.map (fun c => ⟨true, c % 256⟩) ∧
    (writeStrTransfers s).length = s.length ∧
    (writeStrTransfers s).all (fun t => t.rs) = true ∧
    (runCtrlLog inc st (writeStrTransfers s)).2.map Prod.fst =
      addrSeq inc st.addr s.length ∧
    (runCtrlLog inc st (writeStrTransfers s)).2.map Prod.snd =
      s.map (fun c => c % 256) := by
  refine ⟨rfl, by simp [writeStrTransfers], by simp [writeStrTransfers], ?_, ?_⟩
  · exact runCtrlLog_writeStr_fst inc st s
  · exact runCtrlLog_writeStr_snd inc st s

/-- C8: for every nibble value and both RS levels, the transfer primitive
drives each of the four data lines exactly once, to the value's bit pattern
(D4 = bit 0 .. D7 = bit 3), pulses EN exactly once (one high write, one low
write), and writes RS exactly once — as the very first event of the trace, so
RS is stable across the entire pulse; and every 8-bit value is sent as two
nibble transfers, high nibble first, both with the same RS level. -/
theorem write_nibble_spec (rsLevel : Bool) (v : Nat) (_h : v < 16) :
    lineWrites Line.d4 (write_nibble rsLevel v) = [v.testBit 0] ∧
    lineWrites Line.d5 (write_nibble rsLevel v) = [v.testBit 1] ∧
    lineWrites Line.d6 (write_nibble rsLevel v) = [v.testBit 2] ∧
    lineWrites Line.d7 (write_nibble rsLevel v) = [v.testBit 3] ∧
    lineWrites Line.en (write_nibble rsLevel v) = [true, false] ∧
    lineWrites Line.rs (write_nibble rsLevel v) = [rsLevel] ∧
    (write_nibble rsLevel v).head? = some (Ev.drive Line.rs rsLevel) ∧
    (∀ rsB vB, write_byte rsB vB =
      write_nibble rsB (vB / 16 % 16) ++ write_nibble rsB (vB % 16)) := by
  refine ⟨?_, ?_, ?_, ?_, ?_, ?_, rfl, fun rsB vB => rfl⟩ <;>
    simp [write_nibble, lineWrites]

/-- Witness for C8 at RS = data level and nibble value 5. -/
theorem write_nibble_spec_witness :
    lineWrites Line.d4 (write_nibble true 5) = [Nat.testBit 5 0] ∧
    lineWrites Line.en (write_nibble true 5) = [true, false] ∧
    lineWrites Line.rs (write_nibble true 5) = [true] := by
  have h := write_nibble_spec true 5 (by norm_num)
  exact ⟨h.1, h.2.2.2.2.1, h.2.2.2.2.2.1⟩

/-- C9: every public operation other than construction is available only in
the ready state and leaves the driver ready; consequently no sequence of
public operations started from a ready driver ever reaches the uninitialized
state, and no single operation ever produces it — re-construction is the only
way to run the uninitialized-to-ready transition. -/
theorem state_machine_spec :
    (∀ st o st2, opRun st o = some st2 → st = DState.ready ∧ st2 = DState.ready) ∧
    (∀ ops st2, opsRun DState.ready ops = some st2 → st2 = DState.ready) ∧
    (∀ st o, opRun st o ≠ some DState.uninitialized) := by
  refine ⟨?_, ?_, ?_⟩
  · intro st o st2 hst
    cases st with
    | ready =>
      refine ⟨rfl, ?_⟩
      have : some DState.ready = some st2 := hst
      simpa using this.symm
    | uninitialized => exact absurd hst (by simp [opRun])
    | fourBitConfigured => exact absurd hst (by simp [opRun])
  · intro ops
    induction ops with
    | nil =>
      intro st2 hst
      have : some DState.ready = some st2 := hst
      simpa using this.symm
    | cons o rest ih =>
      intro st2 hst
      exact ih st2 hst
  · intro st o
    cases st <;> simp [opRun]

/-- Witness for C9: a concrete operation sequence from the ready state. -/
theorem state_machine_spec_witness :
    DState.ready = DState.ready ∧
    opRun DState.ready Op.opClear ≠ some DState.uninitialized := by
  have h := state_machine_spec
  exact ⟨h.2.1 [Op.opClear, Op.opReset] DState.ready rfl,
    h.2.2 DState.ready Op.opClear⟩

/-- C10: the example program runs its LCD steps in source order — new_4bit,
reset, clear, first write_str, set_cursor_pos 40, second write_str — with
every Result immediately unwrapped; for every behaviour of the output lines
the attempted steps never exceed the program's steps, and every attempted
step except possibly the last one succeeded, so an operation is only ever
attempted after construction and all preceding operations succeeded, and no
LCD operation is attempted after a failed one. -/
theorem main_sequence_spec (ok : Nat → Bool) :
    mainSteps = [new4bitTrace, resetTrace, clearTrace, writeStrTrace text1,
      setCursorTrace 40, writeStrTrace text2] ∧
    (runResults ok 0 mainSteps).length ≤ mainSteps.length ∧
    (runResults ok 0 mainSteps).dropLast.all resOk = true :=
  ⟨rfl, (runResults_spec ok 0 mainSteps).1, (runResults_spec ok 0 mainSteps).2⟩

end Lcd
